import Mathlib

/-!
# Verification of `generator_with_index.py` (RONAVI-STUDIO)

Shallow embedding of the index-maintenance and remote-sync logic of
`src/generator_with_index.py`, together with theorems settling the spec
claims about it.

Modelling conventions:

* Python/JSON values that flow through the index are modelled by `Json`.
  Python `dict`s (which are insertion ordered) are modelled by association
  lists `List (String × Json)`; `dget`/`dset` mirror `dict.get` /
  item-assignment semantics (overwriting an existing key keeps its position,
  a fresh key is appended).
* Machinery that reads or writes files is modelled by explicit state:
  the manifest file's content is a `LoadResult` (missing / unreadable /
  parsed JSON value), and `update_local_index` returns the entry list that
  `json.dump` serializes.  A Python exception escaping a function is an
  `Except.error` carrying the exception's name.
* The HTTP transport of `requests` is abstracted as the `HttpResponse`
  value the remote store answers with (`status`, parsed JSON `body`, raw
  `text`); the `requests` package is assumed importable (its absence only
  raises an environment `RuntimeError` before any logic runs).
* `os.path.join` / `os.path.relpath` are embedded on POSIX path strings,
  with the process working directory supplied as a normalized component
  list `cwd` (the role it plays inside `os.path.abspath`).
-/

set_option autoImplicit false

namespace RonaviGen

/-- A JSON value as produced by Python's `json.loads`: objects keep key
insertion order, which we model with an association list. -/
inductive Json where
  | null
  | bool (b : Bool)
  | num (n : Int)
  | str (s : String)
  | arr (elems : List Json)
  | obj (fields : List (String × Json))

/-- Python `d.get(k)`: value of the first binding of `k`, if any. -/
def dget : List (String × Json) → String → Option Json
  | [], _ => none
  | (k1, v1) :: rest, k => if k1 = k then some v1 else dget rest k

/-- Python `d[k] = v` (also what each step of `d.update({...})` does):
overwrite the existing binding of `k` in place, else append it. -/
def dset : List (String × Json) → String → Json → List (String × Json)
  | [], k, v => [(k, v)]
  | (k1, v1) :: rest, k, v =>
    if k1 = k then (k, v) :: rest else (k1, v1) :: dset rest k v

/-- Python truthiness of an optional string (`if args.repo:`,
`if sha:`): `None` and the empty string are falsy. -/
def pyTruthy : Option String → Bool
  | none => false
  | some s => !(s == "")

/-- Python truthiness of a decoded JSON value (`if existing:`). -/
def jsonTruthy : Json → Bool
  | .null => false
  | .bool b => b
  | .num n => !(n == 0)
  | .str s => !(s == "")
  | .arr elems => !elems.isEmpty
  | .obj fields => !fields.isEmpty

/-! ## POSIX path model (`os.path.join`, `os.path.relpath`)

Paths are strings; `splitSlash` splits a character list at `/`, exactly
as `"a/b".split("/")` groups characters (empty groups included). -/

/-- Split a character list at every slash; never returns `[]`. -/
def splitSlash : List Char → List (List Char)
  | [] => [[]]
  | c :: rest =>
    if c = '/' then [] :: splitSlash rest
    else
      match splitSlash rest with
      | [] => [[c]]
      | g :: gs => (c :: g) :: gs

/-- Nonempty slash-separated groups of a character list, as strings. -/
def partsOf (l : List Char) : List String :=
  ((splitSlash l).filter (fun g => !g.isEmpty)).map (fun g => String.mk g)

/-- The nonempty components of a path string, in order (what
`[x for x in p.split(sep) if x]` computes inside `posixpath.relpath`). -/
def splitParts (s : String) : List String := partsOf s.data

/-- Python `p.startswith("/")`. -/
def isAbsPath (s : String) : Bool :=
  match s.data with
  | c :: _ => c = '/'
  | [] => false

/-- Python `p.endswith("/")`. -/
def strEndsWithSlash (s : String) : Bool :=
  match s.data.getLast? with
  | some c => c = '/'
  | none => false

/-- Python `posixpath.join(a, b)` for two arguments: `b` if `b` is absolute,
plain concatenation if `a` is empty or already ends in a slash, else
concatenation with a separating slash. -/
def joinPath (a b : String) : String :=
  if isAbsPath b then b
  else if a = "" || strEndsWithSlash a then a ++ b
  else a ++ "/" ++ b

/-- One step of `posixpath.normpath` on an absolute path's component
list: drop `.`, let `..` pop the last component (or vanish at the root). -/
def normStep (acc : List String) (c : String) : List String :=
  if c = "." then acc
  else if c = ".." then acc.dropLast
  else acc ++ [c]

/-- Normalized component list of an absolute path
(the effect of `normpath` inside `abspath`). -/
def normAbs (comps : List String) : List String := comps.foldl normStep []

/-- Component list of `os.path.abspath(p)` when the process working
directory has (already normalized) components `cwd`. -/
def absParts (cwd : List String) (p : String) : List String :=
  if isAbsPath p then normAbs (splitParts p) else normAbs (cwd ++ splitParts p)

/-- Length of the longest common prefix of two component lists
(`os.path.commonprefix` on lists). -/
def commonPrefixLen : List String → List String → Nat
  | a :: as, b :: bs => if a = b then commonPrefixLen as bs + 1 else 0
  | _, _ => 0

/-- Python `os.path.join(*rel_list) or os.curdir`, for the relative component
list `posixpath.relpath` builds (components are `..` or plain names). -/
def joinRel : List String → String
  | [] => "."
  | [x] => x
  | x :: xs => x ++ "/" ++ joinRel xs

/-- Python `posixpath.relpath(path, start)` with working directory `cwd`:
take `abspath` of both, strip the common prefix, climb with `..`. -/
def relpath (cwd : List String) (path start : String) : String :=
  let pl := absParts cwd path
  let sl := absParts cwd start
  let i := commonPrefixLen sl pl
  joinRel (List.replicate (sl.length - i) ".." ++ pl.drop i)

/-! ## Local index store (`update_local_index`, lines 157-196) -/

/-- The manifest file name (`INDEX_FILENAME`, line 146). -/
def INDEX_FILENAME : String := "rgeres_index.json"

/-- State of the attempt to read the manifest file at lines 165-172:
the file may be missing (`os.path.exists` false), present but failing
to read or to parse (the `except` branch), or parsed to a JSON value. -/
inductive LoadResult where
  | missing
  | unreadable
  | parsed (j : Json)

/-- The entry list lines 163-172 leave in `entries`: empty unless the
file parsed to a JSON array (the `isinstance(entries, list)` guard),
in which case the array's elements are taken as-is. -/
def loadEntries : LoadResult → List Json
  | .missing => []
  | .unreadable => []
  | .parsed (.arr elems) => elems
  | .parsed _ => []

/-- The test `os.path.exists(idx_path)` in terms of the manifest state. -/
def indexFileExists : LoadResult → Bool
  | .missing => false
  | _ => true

/-- The JSON value stored under `"blob_sha"`: `None` serializes to
`null`, a hash string to a JSON string. -/
def shaJson : Option String → Json
  | none => .null
  | some s => .str s

/-- The fresh entry dict built at lines 186-192, keys in literal order. -/
def newEntryFields (filename relPath source ts : String) (sha : Option String) :
    List (String × Json) :=
  [("name", .str filename), ("path", .str relPath), ("source", .str source),
   ("timestamp", .str ts), ("blob_sha", shaJson sha)]

/-- The fresh entry appended at lines 185-192. -/
def newEntry (filename relPath source ts : String) (sha : Option String) : Json :=
  .obj (newEntryFields filename relPath source ts sha)

/-- The call `e.update({"name": .., "source": .., "timestamp": .., "blob_sha": ..})`
at line 181: four in-place key assignments in the literal's order
(note `"path"` is not touched). -/
def updateEntry (d : List (String × Json)) (filename source ts : String)
    (sha : Option String) : List (String × Json) :=
  dset (dset (dset (dset d "name" (.str filename)) "source" (.str source))
    "timestamp" (.str ts)) "blob_sha" (shaJson sha)

/-- The test `e.get("path") == rel_path` at line 180, for an entry that
is a dict: a Python string compares equal only to an equal string. -/
def pathEq (d : List (String × Json)) (p : String) : Bool :=
  match dget d "path" with
  | some (.str s) => s == p
  | _ => false

/-- The `for e in entries` loop at lines 178-183.  Returns the rewritten
list and whether a matching entry was found (`updated`).  A list element
that is not a dict has no `.get` method, so the loop raises
`AttributeError` when it reaches one (uncaught in the source). -/
def upsertLoop (relPath filename source ts : String) (sha : Option String) :
    List Json → Except String (List Json × Bool)
  | [] => .ok ([], false)
  | e :: rest =>
    match e with
    | .obj d =>
      if pathEq d relPath then
        .ok (.obj (updateEntry d filename source ts sha) :: rest, true)
      else
        match upsertLoop relPath filename source ts sha rest with
        | .error msg => .error msg
        | .ok (r, u) => .ok (e :: r, u)
    | _ => .error "AttributeError"

/-- Lines 177-192: update the matching entry in place, else append the
fresh entry dict. -/
def upsertIndex (entries : List Json) (relPath filename source ts : String)
    (sha : Option String) : Except String (List Json) :=
  match upsertLoop relPath filename source ts sha entries with
  | .error msg => .error msg
  | .ok (r, true) => .ok r
  | .ok (r, false) => .ok (r ++ [newEntry filename relPath source ts sha])

/-- The function `update_local_index(outdir, filename, source, blob_sha)`
(lines 157-196): load the manifest (lines 163-172), compute
`rel_path = os.path.relpath(os.path.join(outdir, filename), start=outdir)`
(line 174), stamp `now = datetime.utcnow().isoformat() + "Z"` (line 175,
with the `isoformat()` part passed in as `nowIso`), upsert, and return
the entry list that lines 194-195 serialize back to the manifest file. -/
def update_local_index (cwd : List String) (load : LoadResult)
    (outdir filename source : String) (blob_sha : Option String)
    (nowIso : String) : Except String (List Json) :=
  let entries := loadEntries load
  let rel_path := relpath cwd (joinPath outdir filename) outdir
  upsertIndex entries rel_path filename source (nowIso ++ "Z") blob_sha

/-- The sequence of manifest-file contents a concurrent reader can
observe during lines 194-195: `open(idx_path, "w")` truncates the file
in place, then the serialized text is written incrementally, so the
observable states are the previous content followed by every prefix of
the new content (the state after a write failure is likewise one of
those prefixes). -/
def manifestWriteSeq (prev serialized : String) : List String :=
  prev :: (List.range (serialized.data.length + 1)).map
    (fun k => String.mk (serialized.data.take k))

/-! ## Remote blob client (`gh_get_file` / `gh_put_file`, lines 200-241) -/

/-- What the remote store answers a request with: HTTP status, the JSON
body `resp.json()` decodes to, and the raw `resp.text`. -/
structure HttpResponse where
  status : Nat
  body : Json
  text : String

/-- The function `gh_get_file` (lines 207-218), given the store's response: the
parsed body on status 200, `None` on anything else (lines 216-218). -/
def gh_get_file (resp : HttpResponse) : Option Json :=
  if resp.status = 200 then some resp.body else none

/-- The JSON payload `gh_put_file` sends (lines 230-236): `message`,
base64 content and branch always, and `sha` only when the argument is
truthy (`if sha:` — `None` and `""` both omit it). -/
def gh_put_payload (message contentB64 branch : String) (sha : Option String) :
    List (String × Json) :=
  let payload := [("message", Json.str message), ("content", Json.str contentB64),
    ("branch", Json.str branch)]
  match sha with
  | some s => if s = "" then payload else payload ++ [("sha", Json.str s)]
  | none => payload

/-- The handling by `gh_put_file` of the store's response (lines 237-241):
the parsed body on 200/201, otherwise raise `RuntimeError` with the
status and response text. -/
def gh_put_file (resp : HttpResponse) : Except String Json :=
  if resp.status = 200 || resp.status = 201 then .ok resp.body
  else .error ("GitHub API error " ++ toString resp.status ++ ": " ++ resp.text)

/-! ## Reconciler (`main`, lines 250-318)

Everything the spec places outside the sync core is passed in at the
boundary: artifact text production (template lookup or the AI call,
spec section 1 treats both as external collaborators) is a function
`gen : kind → text`; `datetime.utcnow().isoformat()` is a clock
`Nat → String` read at successive ticks; the HTTP transport is an
`Oracle` giving the store's response for each remote path (each remote
path is requested at most once per phase in this program). -/

/-- A network request issued by the run (URL abbreviated to its path). -/
inductive NetCall where
  | get (path : String)
  | put (path : String)
deriving DecidableEq

/-- The store's responses, per remote path. -/
structure Oracle where
  getResp : String → HttpResponse
  putResp : String → HttpResponse

/-- The command-line configuration (lines 251-259) relevant to the
sync logic.  `repo` and `token` are `none` when the flag is absent. -/
structure Config where
  mode : String
  typ : String
  outdir : String
  repo : Option String
  token : Option String
  branch : String
  commitMessage : String

/-- Lines 261-265: which `(script_type, filename)` pairs to process. -/
def to_create (typ : String) : List (String × String) :=
  (if typ = "server" || typ = "both" then [("server", "ronavi_server.lua")] else []) ++
  (if typ = "local" || typ = "both" then [("local", "ronavi_local.lua")] else [])

/-- Observable state threaded through `main`: the artifact files this
run wrote (path to contents, overwrite on rewrite), the manifest file's
state, the network calls issued so far, and the clock tick. -/
structure MainState where
  files : List (String × String)
  index : LoadResult
  net : List NetCall
  tick : Nat

/-- Record a local file write (`save_file`, lines 149-154): overwrite
an existing path, else append. -/
def fset : List (String × String) → String → String → List (String × String)
  | [], k, v => [(k, v)]
  | (k1, v1) :: rest, k, v =>
    if k1 = k then (k, v) :: rest else (k1, v1) :: fset rest k v

/-- Look up a written file's contents. -/
def fget : List (String × String) → String → Option String
  | [], _ => none
  | (k1, v1) :: rest, k => if k1 = k then some v1 else fget rest k

/-- The lookup `existing["sha"]` on a remote descriptor (line 296 / 312): the value
when `existing` is a dict carrying a string `sha` (the shape the content
API contract guarantees); a missing key raises `KeyError`, a non-dict
raises `TypeError`.  An out-of-contract non-string `sha` is surfaced as
an error as well (the API never produces one). -/
def descriptorSha (j : Json) : Except String String :=
  match j with
  | .obj d =>
    match dget d "sha" with
    | some (.str s) => .ok s
    | some _ => .error "TypeError"
    | none => .error "KeyError"
  | _ => .error "TypeError"

/-- The lookup `result["content"]["sha"]` on a put response (line 298 / 314). -/
def extractContentSha (j : Json) : Except String String :=
  match j with
  | .obj d =>
    match dget d "content" with
    | some (.obj c) =>
      match dget c "sha" with
      | some (.str s) => .ok s
      | some _ => .error "TypeError"
      | none => .error "KeyError"
    | some _ => .error "TypeError"
    | none => .error "KeyError"
  | _ => .error "TypeError"

/-- The assignment `sha = existing["sha"] if existing else None` (line 296 / 312):
a falsy descriptor (absent, or an empty object) yields no sha. -/
def existingSha (existing : Option Json) : Except String (Option String) :=
  match existing with
  | some j =>
    if jsonTruthy j then
      match descriptorSha j with
      | .ok s => .ok (some s)
      | .error e => .error e
    else .ok none
  | none => .ok none

/-- The fetch-then-put sequence of lines 295-298 (and 311-314 for the
index): `gh_get_file`, `sha = existing["sha"] if existing else None`,
`gh_put_file`, extract the new content sha.  Returns the network calls
actually issued together with the new sha or the exception that escaped
(the caller's `try` catches it). -/
def trySyncPush (oracle : Oracle) (path : String) :
    List NetCall × Except String String :=
  match existingSha (gh_get_file (oracle.getResp path)) with
  | .error e => ([NetCall.get path], .error e)
  | .ok _sha =>
    match gh_put_file (oracle.putResp path) with
    | .error e => ([NetCall.get path, NetCall.put path], .error e)
    | .ok body =>
      match extractContentSha body with
      | .error e => ([NetCall.get path, NetCall.put path], .error e)
      | .ok s => ([NetCall.get path, NetCall.put path], .ok s)

/-- One iteration of the `for stype, fname in to_create` loop
(lines 268-303): produce the text, `save_file` it, `update_local_index`
with `blob_sha=None` (an exception here escapes `main`), and — when both
`--repo` and `--github-token` are truthy — attempt the remote push; any
exception inside the `try` (lines 294-303), including one from the
second `update_local_index` call at line 301, is caught and logged and
the loop continues. -/
def processArtifact (cfg : Config) (oracle : Oracle) (cwd : List String)
    (clock : Nat → String) (gen : String → String) (st : MainState)
    (art : String × String) : Except String MainState :=
  let contents := gen art.1
  let fname := art.2
  let files := fset st.files (joinPath cfg.outdir fname) contents
  match update_local_index cwd st.index cfg.outdir fname cfg.mode none
      (clock st.tick) with
  | .error e => .error e
  | .ok entries =>
    let st1 : MainState :=
      { files := files, index := .parsed (.arr entries), net := st.net,
        tick := st.tick + 1 }
    if pyTruthy cfg.repo && pyTruthy cfg.token then
      match trySyncPush oracle fname with
      | (calls, .error _) => .ok { st1 with net := st1.net ++ calls }
      | (calls, .ok blobSha) =>
        match update_local_index cwd st1.index cfg.outdir fname cfg.mode
            (some blobSha) (clock st1.tick) with
        | .error _ =>
          .ok { st1 with net := st1.net ++ calls, tick := st1.tick + 1 }
        | .ok entries2 =>
          .ok { files := files, index := .parsed (.arr entries2),
                net := st1.net ++ calls, tick := st1.tick + 1 }
    else .ok st1

/-- The artifact loop. -/
def processArtifacts (cfg : Config) (oracle : Oracle) (cwd : List String)
    (clock : Nat → String) (gen : String → String) :
    MainState → List (String × String) → Except String MainState
  | st, [] => .ok st
  | st, art :: rest =>
    match processArtifact cfg oracle cwd clock gen st art with
    | .error e => .error e
    | .ok st1 => processArtifacts cfg oracle cwd clock gen st1 rest

/-- Lines 305-316: after the loop, if sync is configured and the
manifest file exists, push the manifest itself through the same
fetch-then-put sequence; failures are caught and logged. -/
def pushIndexPhase (cfg : Config) (oracle : Oracle) (st : MainState) : MainState :=
  if pyTruthy cfg.repo && pyTruthy cfg.token && indexFileExists st.index then
    { st with net := st.net ++ (trySyncPush oracle INDEX_FILENAME).1 }
  else st

/-- The function `main` (lines 250-318), from a starting manifest state `init`:
process every artifact, then push the index. -/
def runMain (cfg : Config) (oracle : Oracle) (cwd : List String)
    (clock : Nat → String) (gen : String → String) (init : LoadResult) :
    Except String MainState :=
  match processArtifacts cfg oracle cwd clock gen
      { files := [], index := init, net := [], tick := 0 } (to_create cfg.typ) with
  | .error e => .error e
  | .ok st => .ok (pushIndexPhase cfg oracle st)

/-! ## Derived observations used by the theorems -/

/-- Field lookup on an entry, when the entry is a JSON object. -/
def entryField (e : Json) (k : String) : Option Json :=
  match e with
  | .obj d => dget d k
  | _ => none

/-- The `path` key of an entry, when it is an object with a string path. -/
def pathKey (e : Json) : Option String :=
  match e with
  | .obj d =>
    match dget d "path" with
    | some (.str s) => some s
    | _ => none
  | _ => none

/-- Whether an entry matches path `p` in the sense of line 180. -/
def entryMatches (e : Json) (p : String) : Bool :=
  match e with
  | .obj d => pathEq d p
  | _ => false

/-- Whether the dict binds key `k`. -/
def hasKey (d : List (String × Json)) (k : String) : Bool :=
  (dget d k).isSome

/-- A concrete remote store for the concrete-run theorems: every fetch
answers "not found" and every write is rejected with a conflict. -/
def conflictOracle : Oracle :=
  ⟨fun _ => ⟨404, .null, "Not Found"⟩, fun _ => ⟨409, .null, "Conflict"⟩⟩

/-- A concrete clock for the concrete-run theorems. -/
def tickClock : Nat → String := fun n => "T" ++ toString n

/-- A concrete artifact producer for the concrete-run theorems. -/
def echoGen : String → String := fun s => s

/-! ## Association-list lemmas -/

theorem dget_dset_self (d : List (String × Json)) (k : String) (v : Json) :
    dget (dset d k v) k = some v := by
  induction d with
  | nil => simp [dset, dget]
  | cons p rest ih =>
    by_cases h : p.1 = k
    · simp [dset, dget, h]
    · simp [dset, dget, h, ih]

theorem dget_dset_ne (d : List (String × Json)) (k k1 : String) (v : Json)
    (h : k1 ≠ k) : dget (dset d k v) k1 = dget d k1 := by
  have h' : ¬ k = k1 := fun hh => h hh.symm
  induction d with
  | nil => simp [dset, dget, h']
  | cons p rest ih =>
    by_cases hp : p.1 = k
    · simp [dset, dget, hp, h', h]
    · by_cases hq : p.1 = k1
      · simp [dset, dget, hp, hq, h', h]
      · simp [dset, dget, hp, hq, ih]

theorem hasKey_dset_self (d : List (String × Json)) (k : String) (v : Json) :
    hasKey (dset d k v) k = true := by
  simp [hasKey, dget_dset_self]

theorem hasKey_dset_of (d : List (String × Json)) (k k1 : String) (v : Json)
    (h : hasKey d k1 = true) : hasKey (dset d k v) k1 = true := by
  by_cases hk : k1 = k
  · subst hk; exact hasKey_dset_self d k1 v
  · simpa [hasKey, dget_dset_ne d k k1 v hk] using h

theorem dset_dset_same (d : List (String × Json)) (k : String) (v w : Json) :
    dset (dset d k v) k w = dset d k w := by
  induction d with
  | nil => simp [dset]
  | cons p rest ih =>
    by_cases h : p.1 = k
    · simp [dset, h]
    · simp [dset, h, ih]

theorem dset_comm_of_hasKey (d : List (String × Json)) (k k1 : String)
    (v w : Json) (hk : hasKey d k = true ∨ hasKey d k1 = true) (hne : k ≠ k1) :
    dset (dset d k v) k1 w = dset (dset d k1 w) k v := by
  induction d with
  | nil =>
    rcases hk with hk | hk <;> simp [hasKey, dget] at hk
  | cons p rest ih =>
    by_cases h : p.1 = k
    · simp [dset, h, Ne.symm hne, hne]
    · by_cases h1 : p.1 = k1
      · simp [dset, h, h1, hne, Ne.symm hne]
      · have hk' : hasKey rest k = true ∨ hasKey rest k1 = true := by
          rcases hk with hk | hk
          · left; simpa [hasKey, dget, h] using hk
          · right; simpa [hasKey, dget, h1] using hk
        simp [dset, h, h1, ih hk']

/-! ## `updateEntry` lemmas -/

theorem dget_updateEntry_name (d : List (String × Json)) (n s t : String)
    (sh : Option String) : dget (updateEntry d n s t sh) "name" = some (.str n) := by
  unfold updateEntry
  rw [dget_dset_ne _ _ _ _ (by decide : ("name" : String) ≠ "blob_sha"),
    dget_dset_ne _ _ _ _ (by decide : ("name" : String) ≠ "timestamp"),
    dget_dset_ne _ _ _ _ (by decide : ("name" : String) ≠ "source"),
    dget_dset_self]

theorem dget_updateEntry_source (d : List (String × Json)) (n s t : String)
    (sh : Option String) : dget (updateEntry d n s t sh) "source" = some (.str s) := by
  unfold updateEntry
  rw [dget_dset_ne _ _ _ _ (by decide : ("source" : String) ≠ "blob_sha"),
    dget_dset_ne _ _ _ _ (by decide : ("source" : String) ≠ "timestamp"),
    dget_dset_self]

theorem dget_updateEntry_timestamp (d : List (String × Json)) (n s t : String)
    (sh : Option String) : dget (updateEntry d n s t sh) "timestamp" = some (.str t) := by
  unfold updateEntry
  rw [dget_dset_ne _ _ _ _ (by decide : ("timestamp" : String) ≠ "blob_sha"),
    dget_dset_self]

theorem dget_updateEntry_blob_sha (d : List (String × Json)) (n s t : String)
    (sh : Option String) : dget (updateEntry d n s t sh) "blob_sha" = some (shaJson sh) := by
  unfold updateEntry
  rw [dget_dset_self]

theorem dget_updateEntry_path (d : List (String × Json)) (n s t : String)
    (sh : Option String) : dget (updateEntry d n s t sh) "path" = dget d "path" := by
  unfold updateEntry
  rw [dget_dset_ne _ _ _ _ (by decide : ("path" : String) ≠ "blob_sha"),
    dget_dset_ne _ _ _ _ (by decide : ("path" : String) ≠ "timestamp"),
    dget_dset_ne _ _ _ _ (by decide : ("path" : String) ≠ "source"),
    dget_dset_ne _ _ _ _ (by decide : ("path" : String) ≠ "name")]

/-- Re-running the four-field overwrite absorbs the first run entirely. -/
theorem updateEntry_updateEntry (d : List (String × Json)) (n s t : String)
    (sh : Option String) (n2 s2 t2 : String) (sh2 : Option String) :
    updateEntry (updateEntry d n s t sh) n2 s2 t2 sh2 = updateEntry d n2 s2 t2 sh2 := by
  unfold updateEntry
  set d1 := dset d "name" (.str n) with hd1
  have hn1 : hasKey d1 "name" = true := hasKey_dset_self _ _ _
  have hn2 : hasKey (dset d1 "source" (.str s)) "name" = true := hasKey_dset_of _ _ _ _ hn1
  have hn3 : hasKey (dset (dset d1 "source" (.str s)) "timestamp" (.str t)) "name" = true :=
    hasKey_dset_of _ _ _ _ hn2
  rw [show dset (dset (dset (dset d1 "source" (.str s)) "timestamp" (.str t))
        "blob_sha" (shaJson sh)) "name" (.str n2) =
      dset (dset (dset (dset d1 "name" (.str n2)) "source" (.str s))
        "timestamp" (.str t)) "blob_sha" (shaJson sh) from by
    rw [dset_comm_of_hasKey _ _ _ _ _ (Or.inr hn3) (by decide),
      dset_comm_of_hasKey _ _ _ _ _ (Or.inr hn2) (by decide),
      dset_comm_of_hasKey _ _ _ _ _ (Or.inr hn1) (by decide)]]
  rw [hd1, dset_dset_same]
  set e1 := dset (dset d "name" (.str n2)) "source" (.str s) with he1
  have hs1 : hasKey e1 "source" = true := hasKey_dset_self _ _ _
  have hs2 : hasKey (dset e1 "timestamp" (.str t)) "source" = true := hasKey_dset_of _ _ _ _ hs1
  rw [show dset (dset (dset e1 "timestamp" (.str t)) "blob_sha" (shaJson sh))
        "source" (.str s2) =
      dset (dset (dset e1 "source" (.str s2)) "timestamp" (.str t))
        "blob_sha" (shaJson sh) from by
    rw [dset_comm_of_hasKey _ _ _ _ _ (Or.inr hs2) (by decide),
      dset_comm_of_hasKey _ _ _ _ _ (Or.inr hs1) (by decide)]]
  rw [he1, dset_dset_same]
  set f1 := dset (dset (dset d "name" (.str n2)) "source" (.str s2)) "timestamp" (.str t)
    with hf1
  have ht1 : hasKey f1 "timestamp" = true := hasKey_dset_self _ _ _
  rw [show dset (dset f1 "blob_sha" (shaJson sh)) "timestamp" (.str t2) =
      dset (dset f1 "timestamp" (.str t2)) "blob_sha" (shaJson sh) from
    dset_comm_of_hasKey _ _ _ _ _ (Or.inr ht1) (by decide)]
  rw [hf1, dset_dset_same, dset_dset_same]

/-! ## `newEntry` field facts -/

theorem pathEq_iff (d : List (String × Json)) (p : String) :
    pathEq d p = true ↔ dget d "path" = some (.str p) := by
  unfold pathEq
  cases hd : dget d "path" with
  | none => simp
  | some v => cases v <;> simp [Json.str.injEq]

theorem newEntry_matches (n p s t : String) (sh : Option String) :
    entryMatches (newEntry n p s t sh) p = true := by
  simp [entryMatches, newEntry, pathEq, dget]

theorem pathKey_newEntry (n p s t : String) (sh : Option String) :
    pathKey (newEntry n p s t sh) = some p := by
  simp [pathKey, newEntry, dget]

theorem pathKey_updateEntry (d : List (String × Json)) (n s t : String)
    (sh : Option String) :
    pathKey (.obj (updateEntry d n s t sh)) = pathKey (.obj d) := by
  simp [pathKey, dget_updateEntry_path]

theorem entryMatches_of_pathKey (e : Json) (p q : String) (h : pathKey e = some q) :
    entryMatches e p = (q == p) := by
  cases e <;> simp [pathKey] at h
  rename_i d
  cases hd : dget d "path" with
  | none => rw [hd] at h; simp at h
  | some v =>
    rw [hd] at h
    cases v <;> simp at h
    rename_i s
    subst h
    simp [entryMatches, pathEq, hd]

theorem entryMatches_false_of_ne (e : Json) (p q : String) (h : pathKey e = some q)
    (hne : q ≠ p) : entryMatches e p = false := by
  rw [entryMatches_of_pathKey e p q h]
  simpa using hne

theorem pathKey_of_matches (e : Json) (p : String) (h : entryMatches e p = true) :
    pathKey e = some p := by
  cases e <;> simp [entryMatches] at h
  rename_i d
  rw [pathEq_iff] at h
  simp [pathKey, h]

/-! ## `upsertLoop` and `upsertIndex` lemmas -/

theorem upsertLoop_no_match (p n s t : String) (sh : Option String)
    (es : List Json) (hobj : ∀ e ∈ es, ∃ d, e = Json.obj d)
    (hm : ∀ e ∈ es, entryMatches e p = false) :
    upsertLoop p n s t sh es = .ok (es, false) := by
  induction es with
  | nil => rfl
  | cons e rest ih =>
    obtain ⟨d, rfl⟩ := hobj e (by simp)
    have hme : pathEq d p = false := by
      simpa [entryMatches] using hm (Json.obj d) (by simp)
    have hrest := ih (fun x hx => hobj x (by simp [hx]))
      (fun x hx => hm x (by simp [hx]))
    simp [upsertLoop, hme, hrest]

theorem upsertLoop_found (p n s t : String) (sh : Option String)
    (pre : List Json) (d : List (String × Json)) (post : List Json)
    (hobj : ∀ e ∈ pre, ∃ d1, e = Json.obj d1)
    (hm : ∀ e ∈ pre, entryMatches e p = false)
    (hd : pathEq d p = true) :
    upsertLoop p n s t sh (pre ++ Json.obj d :: post) =
      .ok (pre ++ Json.obj (updateEntry d n s t sh) :: post, true) := by
  induction pre with
  | nil => simp [upsertLoop, hd]
  | cons e rest ih =>
    obtain ⟨d1, rfl⟩ := hobj e (by simp)
    have hme : pathEq d1 p = false := by
      simpa [entryMatches] using hm (Json.obj d1) (by simp)
    have hrest := ih (fun x hx => hobj x (by simp [hx]))
      (fun x hx => hm x (by simp [hx]))
    simp [upsertLoop, hme, hrest]

theorem upsertLoop_ok_false_eq (p n s t : String) (sh : Option String)
    (es r : List Json) (h : upsertLoop p n s t sh es = .ok (r, false)) : r = es := by
  induction es generalizing r with
  | nil => simpa [upsertLoop] using h.symm
  | cons e rest ih =>
    cases e <;> simp [upsertLoop] at h
    rename_i d
    by_cases hd : pathEq d p = true
    · simp [hd] at h
    · rw [Bool.not_eq_true] at hd
      simp [hd] at h
      cases hr : upsertLoop p n s t sh rest with
      | error msg => rw [hr] at h; simp at h
      | ok pr =>
        obtain ⟨r1, u1⟩ := pr
        rw [hr] at h
        simp at h
        obtain ⟨hr1, hu⟩ := h
        subst hu
        rw [← hr1, ih r1 hr]

theorem upsertLoop_ok_true_decomp (p n s t : String) (sh : Option String)
    (es r : List Json) (h : upsertLoop p n s t sh es = .ok (r, true)) :
    ∃ pre d post, es = pre ++ Json.obj d :: post ∧ pathEq d p = true ∧
      (∀ e ∈ pre, ∃ d1, e = Json.obj d1) ∧ (∀ e ∈ pre, entryMatches e p = false) ∧
      r = pre ++ Json.obj (updateEntry d n s t sh) :: post := by
  induction es generalizing r with
  | nil => simp [upsertLoop] at h
  | cons e rest ih =>
    cases e <;> simp [upsertLoop] at h
    rename_i d
    by_cases hd : pathEq d p = true
    · refine ⟨[], d, rest, by simp, hd, by simp, by simp, ?_⟩
      simp [hd] at h
      simp [← h]
    · rw [Bool.not_eq_true] at hd
      simp [hd] at h
      cases hr : upsertLoop p n s t sh rest with
      | error msg => rw [hr] at h; simp at h
      | ok pr =>
        obtain ⟨r1, u1⟩ := pr
        rw [hr] at h
        simp at h
        obtain ⟨hr1, hu⟩ := h
        subst hu
        obtain ⟨pre, d1, post, hes, hd1, hobj, hm, hr1'⟩ := ih r1 hr
        refine ⟨Json.obj d :: pre, d1, post, by simp [hes], hd1, ?_, ?_, by
          simp [← hr1, hr1']⟩
        · intro x hx
          rcases List.mem_cons.mp hx with hx | hx
          · exact ⟨d, hx⟩
          · exact hobj x hx
        · intro x hx
          rcases List.mem_cons.mp hx with hx | hx
          · subst hx; simpa [entryMatches] using hd
          · exact hm x hx

theorem upsertIndex_no_match (es : List Json) (p n s t : String) (sh : Option String)
    (hobj : ∀ e ∈ es, ∃ d, e = Json.obj d)
    (hm : ∀ e ∈ es, entryMatches e p = false) :
    upsertIndex es p n s t sh = .ok (es ++ [newEntry n p s t sh]) := by
  simp [upsertIndex, upsertLoop_no_match p n s t sh es hobj hm]

theorem upsertIndex_found (pre : List Json) (d : List (String × Json))
    (post : List Json) (p n s t : String) (sh : Option String)
    (hobj : ∀ e ∈ pre, ∃ d1, e = Json.obj d1)
    (hm : ∀ e ∈ pre, entryMatches e p = false)
    (hd : pathEq d p = true) :
    upsertIndex (pre ++ Json.obj d :: post) p n s t sh =
      .ok (pre ++ Json.obj (updateEntry d n s t sh) :: post) := by
  simp [upsertIndex, upsertLoop_found p n s t sh pre d post hobj hm hd]

/-- Inversion: a successful upsert either appended the fresh entry after
a fully non-matching scan, or rewrote the first matching entry in place. -/
theorem upsertIndex_ok_inversion (es : List Json) (p n s t : String)
    (sh : Option String) (r : List Json)
    (h : upsertIndex es p n s t sh = .ok r) :
    (r = es ++ [newEntry n p s t sh]) ∨
    (∃ pre d post, es = pre ++ Json.obj d :: post ∧ pathEq d p = true ∧
      (∀ e ∈ pre, ∃ d1, e = Json.obj d1) ∧ (∀ e ∈ pre, entryMatches e p = false) ∧
      r = pre ++ Json.obj (updateEntry d n s t sh) :: post) := by
  unfold upsertIndex at h
  cases hl : upsertLoop p n s t sh es with
  | error msg => rw [hl] at h; simp at h
  | ok pr =>
    obtain ⟨r1, u⟩ := pr
    rw [hl] at h
    cases u with
    | false =>
      left
      simp at h
      rw [← h, upsertLoop_ok_false_eq p n s t sh es r1 hl]
    | true =>
      right
      simp at h
      obtain ⟨pre, d, post, hes, hd, hobj, hm, hr⟩ :=
        upsertLoop_ok_true_decomp p n s t sh es r1 hl
      exact ⟨pre, d, post, hes, hd, hobj, hm, by rw [← h, hr]⟩

/-- A loop run that reports "not updated" scanned every entry: each one
was a dict and none matched. -/
theorem upsertLoop_ok_false_no_match (p n s t : String) (sh : Option String)
    (es r : List Json) (h : upsertLoop p n s t sh es = .ok (r, false)) :
    ∀ e ∈ es, (∃ d, e = Json.obj d) ∧ entryMatches e p = false := by
  induction es generalizing r with
  | nil => simp
  | cons e rest ih =>
    cases e <;> simp [upsertLoop] at h
    rename_i d
    by_cases hd : pathEq d p = true
    · simp [hd] at h
    · rw [Bool.not_eq_true] at hd
      simp [hd] at h
      cases hr : upsertLoop p n s t sh rest with
      | error msg => rw [hr] at h; simp at h
      | ok pr =>
        obtain ⟨r1, u1⟩ := pr
        rw [hr] at h
        simp at h
        obtain ⟨-, hu⟩ := h
        subst hu
        intro x hx
        rcases List.mem_cons.mp hx with rfl | hx
        · exact ⟨⟨d, rfl⟩, by simpa [entryMatches] using hd⟩
        · exact ih r1 hr x hx

/-! ## The index well-formedness invariant (spec section 3) -/

/-- What the data-model invariant of spec section 3 says of an index:
every entry is a JSON object carrying a string `path`, and no two
entries share a `path`. -/
def GoodEntries (es : List Json) : Prop :=
  (∀ e ∈ es, ∃ d q, e = Json.obj d ∧ dget d "path" = some (.str q)) ∧
  (es.map pathKey).Nodup

/-- The indices producible by the program: those reachable from the
empty index by successful upserts. -/
inductive Reachable : List Json → Prop where
  | empty : Reachable []
  | step (es r : List Json) (p n s t : String) (sh : Option String) :
      Reachable es → upsertIndex es p n s t sh = .ok r → Reachable r

theorem exists_first_match (es : List Json) (p : String)
    (h : ∃ e ∈ es, entryMatches e p = true) :
    ∃ pre e post, es = pre ++ e :: post ∧ entryMatches e p = true ∧
      ∀ x ∈ pre, entryMatches x p = false := by
  induction es with
  | nil => simp at h
  | cons a rest ih =>
    by_cases ha : entryMatches a p = true
    · exact ⟨[], a, rest, by simp, ha, by simp⟩
    · have h2 : ∃ e ∈ rest, entryMatches e p = true := by
        obtain ⟨e, he, hm⟩ := h
        rcases List.mem_cons.mp he with rfl | he
        · exact absurd hm ha
        · exact ⟨e, he, hm⟩
      obtain ⟨pre, e, post, hes, hm, hpre⟩ := ih h2
      refine ⟨a :: pre, e, post, by simp [hes], hm, ?_⟩
      intro x hx
      rcases List.mem_cons.mp hx with rfl | hx
      · simpa using ha
      · exact hpre x hx

/-- In a well-formed index decomposed around a `p`-entry, the flanking
entries do not match `p`. -/
theorem flanks_no_match (pre : List Json) (e : Json) (post : List Json)
    (p : String) (hg : GoodEntries (pre ++ e :: post))
    (he : pathKey e = some p) :
    (∀ x ∈ pre, entryMatches x p = false) ∧
    (∀ x ∈ post, entryMatches x p = false) := by
  obtain ⟨hshape, hnd⟩ := hg
  rw [List.map_append, List.map_cons] at hnd
  rw [List.nodup_append] at hnd
  obtain ⟨hnd1, hnd2, hdisj⟩ := hnd
  constructor
  · intro x hx
    obtain ⟨d, q, rfl, hq⟩ := hshape x (by simp [hx])
    have hk : pathKey (Json.obj d) = some q := by simp [pathKey, hq]
    refine entryMatches_false_of_ne _ p q hk ?_
    rintro rfl
    exact absurd he.symm
      (by
        have hmem1 : pathKey (Json.obj d) ∈ pre.map pathKey := List.mem_map_of_mem _ hx
        have hmem2 : pathKey e ∈ pathKey e :: post.map pathKey := by simp
        intro hEq
        have : pathKey (Json.obj d) = pathKey e := by rw [hk, ← hEq]
        exact hdisj hmem1 (this ▸ hmem2))
  · intro x hx
    obtain ⟨d, q, rfl, hq⟩ := hshape x (by simp [hx])
    have hk : pathKey (Json.obj d) = some q := by simp [pathKey, hq]
    refine entryMatches_false_of_ne _ p q hk ?_
    rintro rfl
    have hmem : pathKey (Json.obj d) ∈ post.map pathKey := List.mem_map_of_mem _ hx
    have : (pathKey e :: post.map pathKey).Nodup := hnd2
    rw [List.nodup_cons] at this
    exact this.1 (by rw [he, ← hk]; exact hmem)

/-- Upsert preserves the well-formedness invariant. -/
theorem goodEntries_upsert (es : List Json) (p n s t : String) (sh : Option String)
    (hg : GoodEntries es) (r : List Json) (h : upsertIndex es p n s t sh = .ok r) :
    GoodEntries r := by
  obtain ⟨hshape, hnd⟩ := hg
  unfold upsertIndex at h
  cases hl : upsertLoop p n s t sh es with
  | error msg => rw [hl] at h; simp at h
  | ok pr =>
    obtain ⟨r1, u⟩ := pr
    rw [hl] at h
    cases u with
    | false =>
      simp at h
      have hr1 : r1 = es := upsertLoop_ok_false_eq p n s t sh es r1 hl
      have hnm := upsertLoop_ok_false_no_match p n s t sh es r1 hl
      subst hr1
      constructor
      · intro e he
        rcases List.mem_append.mp (h ▸ he) with he1 | he1
        · exact hshape e he1
        · rw [List.mem_singleton.mp he1]
          exact ⟨_, p, rfl, by simp [newEntry, dget]⟩
      · rw [← h, List.map_append]
        rw [List.nodup_append]
        refine ⟨hnd, by simp, ?_⟩
        intro a ha hb
        simp [pathKey_newEntry] at hb
        obtain ⟨e, he, hpe⟩ := List.mem_map.mp ha
        subst hb
        have hmatch : entryMatches e p = true := by
          rw [entryMatches_of_pathKey e p p hpe]; simp
        have hfalse := (hnm e he).2
        rw [hmatch] at hfalse
        simp at hfalse
    | true =>
      simp at h
      obtain ⟨pre, d, post, hes, hd, hobj, hm, hr⟩ :=
        upsertLoop_ok_true_decomp p n s t sh es r1 hl
      subst hes
      constructor
      · intro e he
        rw [← h, hr] at he
        rcases List.mem_append.mp he with he1 | he1
        · exact hshape e (by simp [he1])
        · rcases List.mem_cons.mp he1 with rfl | he2
          · obtain ⟨d0, q, hobj0, hq⟩ := hshape (Json.obj d) (by simp)
            have hd0 : d0 = d := (Json.obj.inj hobj0).symm
            subst hd0
            exact ⟨_, q, rfl, by rw [dget_updateEntry_path]; exact hq⟩
          · exact hshape e (by simp [he2])
      · rw [← h, hr, List.map_append, List.map_cons, pathKey_updateEntry]
        rw [List.map_append, List.map_cons] at hnd
        exact hnd

theorem reachable_good (es : List Json) (h : Reachable es) : GoodEntries es := by
  induction h with
  | empty => exact ⟨by simp, by simp⟩
  | step es r p n s t sh _ hok ih => exact goodEntries_upsert es p n s t sh ih r hok

/-! ## Path-model lemmas -/

theorem splitSlash_ne_nil (l : List Char) : splitSlash l ≠ [] := by
  cases l with
  | nil => simp [splitSlash]
  | cons c rest =>
    by_cases hc : c = '/'
    · simp [splitSlash, hc]
    · simp only [splitSlash, if_neg hc]
      cases splitSlash rest <;> simp

theorem splitSlash_append (l m : List Char) :
    splitSlash (l ++ '/' :: m) = splitSlash l ++ splitSlash m := by
  induction l with
  | nil => simp [splitSlash]
  | cons c rest ih =>
    by_cases hc : c = '/'
    · simp [splitSlash, hc, ih]
    · simp only [List.cons_append, splitSlash, if_neg hc]
      have ih2 : splitSlash (rest.append ('/' :: m)) = splitSlash rest ++ splitSlash m := ih
      rw [ih2]
      cases hr : splitSlash rest with
      | nil => exact absurd hr (splitSlash_ne_nil rest)
      | cons g gs => simp

theorem splitSlash_no_slash (l : List Char) (h : '/' ∉ l) : splitSlash l = [l] := by
  induction l with
  | nil => rfl
  | cons c rest ih =>
    have hc : ¬ c = '/' := fun hcc => h (hcc ▸ List.mem_cons_self c rest)
    have hr : '/' ∉ rest := fun hm => h (List.mem_cons_of_mem c hm)
    simp only [splitSlash, if_neg hc, ih hr]

theorem partsOf_append_slash (l m : List Char) :
    partsOf (l ++ '/' :: m) = partsOf l ++ partsOf m := by
  unfold partsOf
  rw [splitSlash_append, List.filter_append, List.map_append]

theorem partsOf_no_slash (l : List Char) (hne : l ≠ []) (hs : '/' ∉ l) :
    partsOf l = [String.mk l] := by
  unfold partsOf
  rw [splitSlash_no_slash l hs]
  simp [hne]

theorem partsOf_nil : partsOf [] = [] := rfl

theorem str_data_ne_nil (o : String) (h : o ≠ "") : o.data ≠ [] := by
  intro hd
  exact h (String.ext (by simp [hd]))

theorem partsOf_data_of_bare (f : String) (hne : f ≠ "") (hs : '/' ∉ f.data) :
    partsOf f.data = [f] := by
  rw [partsOf_no_slash f.data (str_data_ne_nil f hne) hs]

theorem isAbsPath_eq_false (f : String) (hs : '/' ∉ f.data) : isAbsPath f = false := by
  unfold isAbsPath
  cases hd : f.data with
  | nil => rfl
  | cons c l =>
    have hc : ¬ c = '/' := by
      intro hcc
      exact hs (hd ▸ (hcc ▸ List.mem_cons_self c l))
    simp [hc]

theorem isAbsPath_append (o f : String) (hod : o.data ≠ []) :
    isAbsPath (o ++ f) = isAbsPath o := by
  unfold isAbsPath
  rw [String.data_append]
  cases hd : o.data with
  | nil => exact absurd hd hod
  | cons c l => rfl

/-- Decompose a string ending in a slash as `l ++ ['/']`. -/
theorem data_decomp_of_endsWithSlash (o : String) (hsl : strEndsWithSlash o = true) :
    o.data.dropLast ++ ['/'] = o.data := by
  unfold strEndsWithSlash at hsl
  cases hlast : o.data.getLast? with
  | none => rw [hlast] at hsl; simp at hsl
  | some c =>
    rw [hlast] at hsl
    have hc : c = '/' := by simpa using hsl
    subst hc
    have hone : o.data ≠ [] := by
      intro he; rw [he] at hlast; simp at hlast
    have h2 := List.dropLast_append_getLast hone
    rw [List.getLast?_eq_getLast o.data hone, Option.some_inj] at hlast
    rw [← hlast]
    exact h2

/-- Joining: `os.path.join(o, f)` splits into `o`'s components followed by `f`,
when `f` is a bare (slash-free, nonempty) name. -/
theorem splitParts_joinPath (o f : String) (hne : f ≠ "") (hs : '/' ∉ f.data) :
    splitParts (joinPath o f) = splitParts o ++ [f] := by
  have habs : isAbsPath f = false := isAbsPath_eq_false f hs
  have hf1 : partsOf f.data = [f] := partsOf_data_of_bare f hne hs
  unfold joinPath
  rw [habs]
  simp only [Bool.false_eq_true, if_false]
  by_cases ho : o = ""
  · subst ho
    rw [if_pos (by simp)]
    unfold splitParts
    rw [String.data_append]
    rw [show ("" : String).data = [] from rfl, List.nil_append, hf1]
    rfl
  · by_cases hsl : strEndsWithSlash o = true
    · rw [if_pos (by simp [hsl])]
      have hdecomp := data_decomp_of_endsWithSlash o hsl
      unfold splitParts
      rw [String.data_append, ← hdecomp, List.append_assoc]
      rw [show (['/'] ++ f.data : List Char) = '/' :: f.data from rfl]
      rw [partsOf_append_slash, hf1]
      rw [show (o.data.dropLast ++ ['/'] : List Char) =
        o.data.dropLast ++ '/' :: ([] : List Char) from rfl]
      rw [partsOf_append_slash, partsOf_nil, List.append_nil]
    · have hsl2 : strEndsWithSlash o = false := by
        revert hsl; cases strEndsWithSlash o <;> simp
      rw [if_neg (by simp [ho, hsl2])]
      unfold splitParts
      rw [String.data_append, String.data_append]
      rw [show ("/" : String).data = ['/'] from rfl, List.append_assoc]
      rw [show (['/'] ++ f.data : List Char) = '/' :: f.data from rfl]
      rw [partsOf_append_slash, hf1]

theorem isAbsPath_joinPath (o f : String) (hs : '/' ∉ f.data) :
    isAbsPath (joinPath o f) = isAbsPath o := by
  have habs : isAbsPath f = false := isAbsPath_eq_false f hs
  unfold joinPath
  rw [habs]
  simp only [Bool.false_eq_true, if_false]
  by_cases ho : o = ""
  · subst ho
    rw [if_pos (by simp)]
    have he : ("" ++ f) = f := String.ext (by simp [String.data_append])
    rw [he, habs]
    rfl
  · have hod : o.data ≠ [] := str_data_ne_nil o ho
    by_cases hsl : strEndsWithSlash o = true
    · rw [if_pos (by simp [hsl])]
      exact isAbsPath_append o f hod
    · have hsl2 : strEndsWithSlash o = false := by
        revert hsl; cases strEndsWithSlash o <;> simp
      rw [if_neg (by simp [ho, hsl2])]
      rw [isAbsPath_append (o ++ "/") f
        (by rw [String.data_append]; simp)]
      exact isAbsPath_append o "/" hod

theorem normAbs_append_single (xs : List String) (c : String)
    (h1 : c ≠ ".") (h2 : c ≠ "..") : normAbs (xs ++ [c]) = normAbs xs ++ [c] := by
  unfold normAbs
  rw [List.foldl_append]
  simp [normStep, h1, h2]

theorem commonPrefixLen_self_append (l m : List String) :
    commonPrefixLen l (l ++ m) = l.length := by
  induction l with
  | nil => cases m <;> simp [commonPrefixLen]
  | cons a rest ih => simp [commonPrefixLen, ih]

/-- The core of claim C10: for a bare filename,
`relpath(join(outdir, f), start=outdir)` collapses to `f`, whatever the
output directory and the working directory are. -/
theorem relpath_joinPath_bare (cwd : List String) (o f : String)
    (hne : f ≠ "") (hs : '/' ∉ f.data) (h1 : f ≠ ".") (h2 : f ≠ "..") :
    relpath cwd (joinPath o f) o = f := by
  unfold relpath absParts
  rw [isAbsPath_joinPath o f hs, splitParts_joinPath o f hne hs]
  by_cases ho : isAbsPath o = true
  · rw [ho]
    simp only [if_true]
    rw [normAbs_append_single _ f h1 h2, commonPrefixLen_self_append]
    simp [joinRel, List.drop_left]
  · have ho2 : isAbsPath o = false := by
      revert ho; cases isAbsPath o <;> simp
    rw [ho2]
    simp only [Bool.false_eq_true, if_false]
    rw [← List.append_assoc, normAbs_append_single _ f h1 h2,
      commonPrefixLen_self_append]
    simp [joinRel, List.drop_left]

/-! ## Main-model support lemmas -/

theorem str_append_cancel (o a b : String) (h : o ++ a = o ++ b) : a = b := by
  apply String.ext
  have hd : (o ++ a).data = (o ++ b).data := by rw [h]
  rw [String.data_append, String.data_append] at hd
  exact List.append_cancel_left hd

theorem joinPath_inj (o a b : String) (ha : isAbsPath a = false)
    (hb : isAbsPath b = false) (h : joinPath o a = joinPath o b) : a = b := by
  unfold joinPath at h
  rw [ha, hb] at h
  simp only [Bool.false_eq_true, if_false] at h
  by_cases hc : (o = "" || strEndsWithSlash o) = true
  · rw [if_pos hc, if_pos hc] at h
    exact str_append_cancel o a b h
  · rw [if_neg hc, if_neg hc] at h
    exact str_append_cancel (o ++ "/") a b h

theorem trySyncPush_calls (oracle : Oracle) (p : String) :
    (trySyncPush oracle p).1 = [NetCall.get p] ∨
    (trySyncPush oracle p).1 = [NetCall.get p, NetCall.put p] := by
  unfold trySyncPush
  cases existingSha (gh_get_file (oracle.getResp p)) with
  | error e => left; rfl
  | ok sha =>
    cases gh_put_file (oracle.putResp p) with
    | error e => right; rfl
    | ok body =>
      cases h3 : extractContentSha body with
      | error e => right; simp [h3]
      | ok s => right; simp [h3]

theorem trySyncPush_get_mem (oracle : Oracle) (p : String) :
    NetCall.get p ∈ (trySyncPush oracle p).1 := by
  rcases trySyncPush_calls oracle p with h | h <;> rw [h] <;> simp

/-! ## Claim theorems -/

/-- Claim C1 (counterexample): the entry `update_local_index` serializes
into the manifest has NO field named `remote_hash`; the
last-confirmed-hash-or-null field is named `blob_sha`. -/
theorem entry_has_no_remote_hash_field_cex :
    update_local_index ["home"] .missing "out" "a.lua" "local" none "T" =
      .ok [newEntry "a.lua" "a.lua" "local" "TZ" none] ∧
    entryField (newEntry "a.lua" "a.lua" "local" "TZ" none) "remote_hash" = none ∧
    entryField (newEntry "a.lua" "a.lua" "local" "TZ" none) "blob_sha" =
      some Json.null :=
  ⟨rfl, rfl, rfl⟩

/-- Claim C1 (amended): every entry created or overwritten by
`update_local_index` carries `name` (the filename string), `path` (a
string), `source` (the source argument), `timestamp` (the ISO instant
with a trailing `"Z"`), and a field named `blob_sha` — not `remote_hash`
— holding the last-confirmed remote content hash or null. -/
theorem entry_fields_written (cwd : List String) (load : LoadResult)
    (outdir f source : String) (sha : Option String) (nowIso : String)
    (es1 : List Json)
    (h : update_local_index cwd load outdir f source sha nowIso = .ok es1) :
    ∃ e ∈ es1, entryField e "name" = some (.str f) ∧
      (∃ p, entryField e "path" = some (.str p)) ∧
      entryField e "source" = some (.str source) ∧
      entryField e "timestamp" = some (.str (nowIso ++ "Z")) ∧
      entryField e "blob_sha" = some (shaJson sha) := by
  unfold update_local_index at h
  rcases upsertIndex_ok_inversion _ _ _ _ _ _ _ h with hr |
    ⟨pre, d, post, hes, hd, hobj, hm, hr⟩
  · subst hr
    refine ⟨newEntry f (relpath cwd (joinPath outdir f) outdir) source
      (nowIso ++ "Z") sha, by simp, ?_,
      ⟨relpath cwd (joinPath outdir f) outdir, ?_⟩, ?_, ?_, ?_⟩ <;>
      simp [entryField, newEntry, dget]
  · subst hr
    refine ⟨.obj (updateEntry d f source (nowIso ++ "Z") sha), by simp,
      ?_, ⟨relpath cwd (joinPath outdir f) outdir, ?_⟩, ?_, ?_, ?_⟩
    · simp [entryField, dget_updateEntry_name]
    · rw [pathEq_iff] at hd
      simp [entryField, dget_updateEntry_path, hd]
    · simp [entryField, dget_updateEntry_source]
    · simp [entryField, dget_updateEntry_timestamp]
    · simp [entryField, dget_updateEntry_blob_sha]

theorem entry_fields_written_witness :
    ∃ e ∈ [newEntry "a.lua" "a.lua" "ai" "T0Z" (some "h1")],
      entryField e "name" = some (.str "a.lua") ∧
      (∃ p, entryField e "path" = some (.str p)) ∧
      entryField e "source" = some (.str "ai") ∧
      entryField e "timestamp" = some (.str ("T0" ++ "Z")) ∧
      entryField e "blob_sha" = some (shaJson (some "h1")) :=
  entry_fields_written ["home"] .missing "out" "a.lua" "ai" (some "h1") "T0"
    [newEntry "a.lua" "a.lua" "ai" "T0Z" (some "h1")] rfl

/-- Claim C2 (counterexample): `gh_get_file` maps EVERY non-200 response
to `None` — an authorization failure (401) and a server error (500) are
indistinguishable from "not found" and no error is surfaced. -/
theorem gh_get_file_nonsuccess_cex :
    gh_get_file ⟨404, .null, "Not Found"⟩ = none ∧
    gh_get_file ⟨401, .null, "Unauthorized"⟩ = none ∧
    gh_get_file ⟨500, .null, "Internal Server Error"⟩ = none :=
  ⟨rfl, rfl, rfl⟩

/-- Claim C2 (amended): a "not found" response yields absent (`None`),
but so does every other non-success response — authorization failures
and server errors are also mapped to absent instead of being surfaced
as an error; only a 200 response returns the descriptor. -/
theorem gh_get_file_absent_unless_200 (resp : HttpResponse) :
    (resp.status = 200 → gh_get_file resp = some resp.body) ∧
    (resp.status ≠ 200 → gh_get_file resp = none) := by
  constructor
  · intro h; simp [gh_get_file, h]
  · intro h; simp [gh_get_file, h]

theorem gh_get_file_absent_unless_200_witness :
    gh_get_file ⟨200, .num 7, "ok"⟩ = some (.num 7) ∧
    gh_get_file ⟨502, .null, "Bad Gateway"⟩ = none :=
  ⟨(gh_get_file_absent_unless_200 ⟨200, .num 7, "ok"⟩).1 rfl,
   (gh_get_file_absent_unless_200 ⟨502, .null, "Bad Gateway"⟩).2 (by decide)⟩

/-- Claim C4 (counterexample): a manifest whose JSON content is the
array `[1]` does deserialize to a sequence — but not a sequence of
entries.  The loader accepts it as-is (not an empty index), and the
subsequent upsert raises `AttributeError` instead of succeeding. -/
theorem load_nonentry_array_cex :
    loadEntries (.parsed (.arr [.num 1])) = [.num 1] ∧
    update_local_index ["home"] (.parsed (.arr [.num 1])) "out" "a.lua"
      "local" none "T" = .error "AttributeError" :=
  ⟨rfl, rfl⟩

/-- Claim C4 (amended): loading a manifest that is missing, unreadable
or unparseable, or whose JSON value is not an array, yields the empty
index without raising, and the subsequent upsert then succeeds from zero
entries; however, a JSON array is accepted whatever its items are, and
the upsert raises on a non-object item instead of recovering. -/
theorem load_recovery (cwd : List String) (load : LoadResult)
    (outdir f source : String) (sha : Option String) (nowIso : String)
    (h : load = .missing ∨ load = .unreadable ∨
      ∃ j, load = .parsed j ∧ ∀ es, j ≠ .arr es) :
    loadEntries load = [] ∧
    update_local_index cwd load outdir f source sha nowIso =
      .ok [newEntry f (relpath cwd (joinPath outdir f) outdir) source
        (nowIso ++ "Z") sha] := by
  have hl : loadEntries load = [] := by
    rcases h with rfl | rfl | ⟨j, rfl, hj⟩
    · rfl
    · rfl
    · cases j with
      | arr es => exact absurd rfl (hj es)
      | null => rfl
      | bool b => rfl
      | num n => rfl
      | str s => rfl
      | obj fields => rfl
  refine ⟨hl, ?_⟩
  unfold update_local_index
  rw [hl]
  rfl

theorem load_recovery_witness :
    loadEntries (.parsed (.str "garbage")) = [] ∧
    update_local_index ["home"] (.parsed (.str "garbage")) "out" "b.lua"
      "local" none "T" =
      .ok [newEntry "b.lua" (relpath ["home"] (joinPath "out" "b.lua") "out")
        "local" ("T" ++ "Z") none] :=
  load_recovery ["home"] (.parsed (.str "garbage")) "out" "b.lua" "local"
    none "T" (Or.inr (Or.inr ⟨.str "garbage", rfl, fun es h => by cases h⟩))

/-- Claim C7: the blob write omits `sha` from its payload when no
expected hash is supplied (create) and includes the supplied hash
(update in place); an HTTP 200/201 returns the store's parsed response,
and every other status — including the client error for a stale or
missing required `sha` — raises an error instead of returning. -/
theorem gh_put_file_status_and_payload (resp : HttpResponse)
    (m c b s : String) (hs : s ≠ "") :
    (resp.status = 200 ∨ resp.status = 201 → gh_put_file resp = .ok resp.body) ∧
    (resp.status ≠ 200 ∧ resp.status ≠ 201 →
      gh_put_file resp =
        .error ("GitHub API error " ++ toString resp.status ++ ": " ++ resp.text)) ∧
    dget (gh_put_payload m c b none) "sha" = none ∧
    dget (gh_put_payload m c b (some s)) "sha" = some (.str s) := by
  refine ⟨?_, ?_, rfl, ?_⟩
  · intro h
    rcases h with h | h <;> simp [gh_put_file, h]
  · rintro ⟨h1, h2⟩
    simp [gh_put_file, h1, h2]
  · simp [gh_put_payload, dget, hs]

theorem gh_put_file_status_and_payload_witness :
    gh_put_file ⟨201, .obj [("content", .obj [("sha", .str "h2")])], "created"⟩ =
      .ok (.obj [("content", .obj [("sha", .str "h2")])]) ∧
    gh_put_file ⟨422, .null, "Unprocessable"⟩ =
      .error ("GitHub API error " ++ toString (422 : Nat) ++ ": " ++ "Unprocessable") ∧
    dget (gh_put_payload "msg" "Yg==" "main" none) "sha" = none ∧
    dget (gh_put_payload "msg" "Yg==" "main" (some "h1")) "sha" = some (.str "h1") :=
  ⟨(gh_put_file_status_and_payload
      ⟨201, .obj [("content", .obj [("sha", .str "h2")])], "created"⟩
      "msg" "Yg==" "main" "h1" (by decide)).1 (Or.inr rfl),
   (gh_put_file_status_and_payload ⟨422, .null, "Unprocessable"⟩
      "msg" "Yg==" "main" "h1" (by decide)).2.1 ⟨by decide, by decide⟩,
   (gh_put_file_status_and_payload ⟨422, .null, "Unprocessable"⟩
      "msg" "Yg==" "main" "h1" (by decide)).2.2.1,
   (gh_put_file_status_and_payload ⟨422, .null, "Unprocessable"⟩
      "msg" "Yg==" "main" "h1" (by decide)).2.2.2⟩

/-- Claim C8 (counterexample): the manifest save is NOT all-or-nothing:
`open(idx_path, "w")` truncates in place, so the empty file is an
observable intermediate state that is neither the previous manifest nor
the new one. -/
theorem manifest_save_partial_observable_cex :
    ("" : String) ∈ manifestWriteSeq "[]" "[1]" ∧
    ("" : String) ≠ "[]" ∧ ("" : String) ≠ "[1]" := by
  refine ⟨by decide, by decide, by decide⟩

/-- Claim C8 (amended): the save overwrites the manifest in place:
immediately after the `open(.., "w")` the file is empty whatever it held
before, so a reader can observe a state that is neither the old nor the
new manifest, and a write failing after the open leaves the
previously-valid manifest destroyed rather than intact. -/
theorem manifest_save_truncates_in_place (prev s : String)
    (hprev : prev ≠ "") (hs : s ≠ "") :
    (manifestWriteSeq prev s).get? 1 = some "" ∧
    ∃ m ∈ manifestWriteSeq prev s, m ≠ prev ∧ m ≠ s := by
  have h1 : (manifestWriteSeq prev s).get? 1 = some "" := by
    unfold manifestWriteSeq
    rw [List.range_succ_eq_map]
    simp
  refine ⟨h1, "", List.get?_mem h1, fun hc => hprev hc.symm, fun hc => hs hc.symm⟩

theorem manifest_save_truncates_in_place_witness :
    (manifestWriteSeq "[]" "[1]" ).get? 1 = some "" ∧
    ∃ m ∈ manifestWriteSeq "[]" "[1]", m ≠ "[]" ∧ m ≠ "[1]" :=
  manifest_save_truncates_in_place "[]" "[1]" (by decide) (by decide)

/-- Claim C10: for every call to `update_local_index` with a bare
filename (nonempty, slash-free, not `.` or `..`) the relative-path
computation of `outdir/filename` against `outdir` collapses to the
filename itself, whatever the output and working directories are, and
the entry written has its `path` and `name` fields both equal to that
bare filename — never containing a directory component. -/
theorem entry_path_is_bare_filename (cwd : List String) (load : LoadResult)
    (outdir f source : String) (sha : Option String) (nowIso : String)
    (es1 : List Json)
    (hne : f ≠ "") (hs : '/' ∉ f.data) (h1 : f ≠ ".") (h2 : f ≠ "..")
    (h : update_local_index cwd load outdir f source sha nowIso = .ok es1) :
    relpath cwd (joinPath outdir f) outdir = f ∧
    ∃ e ∈ es1, entryField e "path" = some (.str f) ∧
      entryField e "name" = some (.str f) := by
  have hrel := relpath_joinPath_bare cwd outdir f hne hs h1 h2
  refine ⟨hrel, ?_⟩
  unfold update_local_index at h
  rw [hrel] at h
  rcases upsertIndex_ok_inversion _ _ _ _ _ _ _ h with hr |
    ⟨pre, d, post, hes, hd, hobj, hm, hr⟩
  · subst hr
    refine ⟨newEntry f f source (nowIso ++ "Z") sha, by simp, ?_, ?_⟩ <;>
      simp [entryField, newEntry, dget]
  · subst hr
    refine ⟨.obj (updateEntry d f source (nowIso ++ "Z") sha), by simp, ?_, ?_⟩
    · rw [pathEq_iff] at hd
      simp [entryField, dget_updateEntry_path, hd]
    · simp [entryField, dget_updateEntry_name]

/-- Rewriting the freshly appended entry's fields overwrites them in
place, keeping the literal key order. -/
theorem updateEntry_newEntryFields (n p s t : String) (sh : Option String)
    (n2 s2 t2 : String) (sh2 : Option String) :
    updateEntry (newEntryFields n p s t sh) n2 s2 t2 sh2 =
      newEntryFields n2 p s2 t2 sh2 := by
  simp [updateEntry, newEntryFields, dset]

/-- Claim C5: in every index reachable from the empty index by a
sequence of upserts, at most one entry exists per distinct path;
upserting an already-present path overwrites that entry's fields in
place, keeping its original position, and upserting a new path appends
the fresh entry at the end. -/
theorem upsert_unique_paths_positional (es : List Json) (hreach : Reachable es)
    (p n s t : String) (sha : Option String) :
    (es.map pathKey).Nodup ∧
    (∀ pre d post, es = pre ++ Json.obj d :: post → pathEq d p = true →
      upsertIndex es p n s t sha =
        .ok (pre ++ Json.obj (updateEntry d n s t sha) :: post)) ∧
    ((∀ e ∈ es, entryMatches e p = false) →
      upsertIndex es p n s t sha = .ok (es ++ [newEntry n p s t sha])) := by
  obtain ⟨hshape, hnd⟩ := reachable_good es hreach
  refine ⟨hnd, ?_, ?_⟩
  · intro pre d post hes hd
    subst hes
    have hobj : ∀ e ∈ pre, ∃ d1, e = Json.obj d1 := by
      intro e he
      obtain ⟨d1, q, rfl, _⟩ := hshape e (by simp [he])
      exact ⟨d1, rfl⟩
    have hkey : pathKey (Json.obj d) = some p := by
      rw [pathEq_iff] at hd
      simp [pathKey, hd]
    have hflank := flanks_no_match pre (Json.obj d) post p ⟨hshape, hnd⟩ hkey
    exact upsertIndex_found pre d post p n s t sha hobj hflank.1 hd
  · intro hm
    have hobj : ∀ e ∈ es, ∃ d1, e = Json.obj d1 := by
      intro e he
      obtain ⟨d1, q, rfl, _⟩ := hshape e he
      exact ⟨d1, rfl⟩
    exact upsertIndex_no_match es p n s t sha hobj hm

theorem upsert_unique_paths_positional_witness :
    upsertIndex [] "a.lua" "a.lua" "local" "TZ" none =
      .ok ([] ++ [newEntry "a.lua" "a.lua" "local" "TZ" none]) :=
  (upsert_unique_paths_positional [] Reachable.empty "a.lua" "a.lua" "local"
    "TZ" none).2.2 (by simp)

/-- Claim C6: upsert is idempotent: on a well-formed index, upserting
the same path with the same field values twice succeeds, leaves exactly
one entry for that path carrying the second call's values, and produces
the same index contents as a single application (timestamp aside: the
second call's timestamp wins either way). -/
theorem upsert_idempotent (es : List Json) (hg : GoodEntries es)
    (p n s : String) (sha : Option String) (t t2 : String) (es1 : List Json)
    (h1 : upsertIndex es p n s t sha = .ok es1) :
    upsertIndex es1 p n s t2 sha = upsertIndex es p n s t2 sha ∧
    ∃ es2, upsertIndex es1 p n s t2 sha = .ok es2 ∧
      es2.countP (fun e => entryMatches e p) = 1 ∧
      ∀ e ∈ es2, entryMatches e p = true →
        entryField e "name" = some (.str n) ∧
        entryField e "source" = some (.str s) ∧
        entryField e "timestamp" = some (.str t2) ∧
        entryField e "blob_sha" = some (shaJson sha) := by
  obtain ⟨hshape, hnd⟩ := hg
  have hobj : ∀ e ∈ es, ∃ d1, e = Json.obj d1 := by
    intro e he
    obtain ⟨d1, q, rfl, _⟩ := hshape e he
    exact ⟨d1, rfl⟩
  by_cases hsome : ∃ e ∈ es, entryMatches e p = true
  · obtain ⟨pre, e0, post, hes, hm0, hpre⟩ := exists_first_match es p hsome
    obtain ⟨d, q, rfl, hq⟩ := hshape e0 (hes ▸ (by simp))
    have hd : pathEq d p = true := by simpa [entryMatches] using hm0
    have hkey : pathKey (Json.obj d) = some p := by
      rw [pathEq_iff] at hd
      simp [pathKey, hd]
    subst hes
    have hpreobj : ∀ e ∈ pre, ∃ d1, e = Json.obj d1 := by
      intro e he
      obtain ⟨d1, q1, rfl, _⟩ := hshape e (by simp [he])
      exact ⟨d1, rfl⟩
    have hpost := (flanks_no_match pre (Json.obj d) post p ⟨hshape, hnd⟩ hkey).2
    have hfirst := upsertIndex_found pre d post p n s t sha hpreobj hpre hd
    rw [hfirst] at h1
    have hes1 : es1 = pre ++ Json.obj (updateEntry d n s t sha) :: post := by
      injection h1 with h1x
      exact h1x.symm
    subst hes1
    have hd2 : pathEq (updateEntry d n s t sha) p = true := by
      rw [pathEq_iff, dget_updateEntry_path]
      rw [pathEq_iff] at hd
      exact hd
    have hsecond := upsertIndex_found pre (updateEntry d n s t sha) post
      p n s t2 sha hpreobj hpre hd2
    have hdirect := upsertIndex_found pre d post p n s t2 sha hpreobj hpre hd
    rw [updateEntry_updateEntry] at hsecond
    refine ⟨by rw [hsecond, hdirect], _, hsecond, ?_, ?_⟩
    · rw [List.countP_append, List.countP_cons]
      have hc1 : pre.countP (fun e => entryMatches e p) = 0 :=
        List.countP_eq_zero.mpr (fun e he => by simp [hpre e he])
      have hc2 : post.countP (fun e => entryMatches e p) = 0 :=
        List.countP_eq_zero.mpr (fun e he => by simp [hpost e he])
      have hc3 : entryMatches (Json.obj (updateEntry d n s t2 sha)) p = true := by
        have hpe : pathEq (updateEntry d n s t2 sha) p = true := by
          rw [pathEq_iff, dget_updateEntry_path]
          rw [pathEq_iff] at hd
          exact hd
        simpa [entryMatches] using hpe
      simp [hc1, hc2, hc3]
    · intro e he hme
      rcases List.mem_append.mp he with he1 | he1
      · rw [hpre e he1] at hme
        cases hme
      · rcases List.mem_cons.mp he1 with rfl | he2
        · exact ⟨by simp [entryField, dget_updateEntry_name],
            by simp [entryField, dget_updateEntry_source],
            by simp [entryField, dget_updateEntry_timestamp],
            by simp [entryField, dget_updateEntry_blob_sha]⟩
        · rw [hpost e he2] at hme
          cases hme
  · have hm : ∀ e ∈ es, entryMatches e p = false := by
      intro e he
      rcases hb : entryMatches e p with _ | _
      · rfl
      · exact absurd ⟨e, he, hb⟩ hsome
    have hfirst := upsertIndex_no_match es p n s t sha hobj hm
    rw [hfirst] at h1
    have hes1 : es1 = es ++ [newEntry n p s t sha] := by
      injection h1 with h1x
      exact h1x.symm
    subst hes1
    have hdnew : pathEq (newEntryFields n p s t sha) p = true := by
      simp [pathEq, newEntryFields, dget]
    have hsecond := upsertIndex_found es (newEntryFields n p s t sha) []
      p n s t2 sha hobj hm hdnew
    rw [updateEntry_newEntryFields] at hsecond
    have hsecond2 : upsertIndex (es ++ [newEntry n p s t sha]) p n s t2 sha =
        .ok (es ++ [newEntry n p s t2 sha]) := hsecond
    have hdirect := upsertIndex_no_match es p n s t2 sha hobj hm
    refine ⟨by rw [hsecond2, hdirect], _, hsecond2, ?_, ?_⟩
    · rw [List.countP_append]
      have hc1 : es.countP (fun e => entryMatches e p) = 0 :=
        List.countP_eq_zero.mpr (fun e he => by simp [hm e he])
      simp [hc1, newEntry_matches]
    · intro e he hme
      rcases List.mem_append.mp he with he1 | he1
      · rw [hm e he1] at hme
        cases hme
      · rw [List.mem_singleton.mp he1]
        refine ⟨?_, ?_, ?_, ?_⟩ <;> simp [entryField, newEntry, newEntryFields, dget]

theorem upsert_idempotent_witness :
    upsertIndex [newEntry "a.lua" "a.lua" "ai" "T1Z" (some "h1")] "a.lua"
        "a.lua" "ai" "T2Z" (some "h1") =
      upsertIndex [] "a.lua" "a.lua" "ai" "T2Z" (some "h1") ∧
    ∃ es2, upsertIndex [newEntry "a.lua" "a.lua" "ai" "T1Z" (some "h1")]
        "a.lua" "a.lua" "ai" "T2Z" (some "h1") = .ok es2 ∧
      es2.countP (fun e => entryMatches e "a.lua") = 1 ∧
      ∀ e ∈ es2, entryMatches e "a.lua" = true →
        entryField e "name" = some (.str "a.lua") ∧
        entryField e "source" = some (.str "ai") ∧
        entryField e "timestamp" = some (.str "T2Z") ∧
        entryField e "blob_sha" = some (shaJson (some "h1")) :=
  upsert_idempotent [] ⟨by simp, by simp⟩ "a.lua" "a.lua" "ai" (some "h1")
    "T1Z" "T2Z" [newEntry "a.lua" "a.lua" "ai" "T1Z" (some "h1")] rfl

theorem entry_path_is_bare_filename_witness :
    relpath ["home"] (joinPath "./output" "ronavi_server.lua") "./output" =
      "ronavi_server.lua" ∧
    ∃ e ∈ [newEntry "ronavi_server.lua" "ronavi_server.lua" "local" "TZ" none],
      entryField e "path" = some (.str "ronavi_server.lua") ∧
      entryField e "name" = some (.str "ronavi_server.lua") :=
  entry_path_is_bare_filename ["home"] .missing "./output" "ronavi_server.lua"
    "local" none "T" [newEntry "ronavi_server.lua" "ronavi_server.lua" "local" "TZ" none]
    (by decide) (by decide) (by decide) (by decide) rfl

/-- Running `update_local_index` with a bare filename on a manifest whose
entries all miss that path: appends the fresh entry. -/
theorem update_local_index_append (cwd : List String) (load : LoadResult)
    (outdir f source : String) (sha : Option String) (nowIso : String)
    (hne : f ≠ "") (hs : '/' ∉ f.data) (h1 : f ≠ ".") (h2 : f ≠ "..")
    (hobj : ∀ e ∈ loadEntries load, ∃ d, e = Json.obj d)
    (hm : ∀ e ∈ loadEntries load, entryMatches e f = false) :
    update_local_index cwd load outdir f source sha nowIso =
      .ok (loadEntries load ++ [newEntry f f source (nowIso ++ "Z") sha]) := by
  show upsertIndex (loadEntries load) (relpath cwd (joinPath outdir f) outdir)
    f source (nowIso ++ "Z") sha = _
  rw [relpath_joinPath_bare cwd outdir f hne hs h1 h2]
  exact upsertIndex_no_match (loadEntries load) f f source (nowIso ++ "Z") sha hobj hm

/-- One artifact iteration with remote sync disabled: write the file,
record the entry, no network interaction. -/
theorem processArtifact_nosync (cfg : Config) (oracle : Oracle) (cwd : List String)
    (clock : Nat → String) (gen : String → String) (st : MainState)
    (art : String × String)
    (hsync : (pyTruthy cfg.repo && pyTruthy cfg.token) = false)
    (entries : List Json)
    (hupd : update_local_index cwd st.index cfg.outdir art.2 cfg.mode none
      (clock st.tick) = .ok entries) :
    processArtifact cfg oracle cwd clock gen st art =
      .ok { files := fset st.files (joinPath cfg.outdir art.2) (gen art.1),
            index := .parsed (.arr entries), net := st.net, tick := st.tick + 1 } := by
  simp only [processArtifact, hupd, hsync]
  simp

/-- One artifact iteration with sync enabled whose push attempt raises:
the exception is caught, the pre-push index state stands. -/
theorem processArtifact_syncfail (cfg : Config) (oracle : Oracle) (cwd : List String)
    (clock : Nat → String) (gen : String → String) (st : MainState)
    (art : String × String)
    (hsync : (pyTruthy cfg.repo && pyTruthy cfg.token) = true)
    (entries : List Json)
    (hupd : update_local_index cwd st.index cfg.outdir art.2 cfg.mode none
      (clock st.tick) = .ok entries)
    (calls : List NetCall) (err : String)
    (htry : trySyncPush oracle art.2 = (calls, .error err)) :
    processArtifact cfg oracle cwd clock gen st art =
      .ok { files := fset st.files (joinPath cfg.outdir art.2) (gen art.1),
            index := .parsed (.arr entries), net := st.net ++ calls,
            tick := st.tick + 1 } := by
  simp only [processArtifact, hupd, hsync, htry]
  simp

/-- One artifact iteration with sync enabled whose push succeeds: the
returned hash is written back through a second upsert. -/
theorem processArtifact_syncok (cfg : Config) (oracle : Oracle) (cwd : List String)
    (clock : Nat → String) (gen : String → String) (st : MainState)
    (art : String × String)
    (hsync : (pyTruthy cfg.repo && pyTruthy cfg.token) = true)
    (entries : List Json)
    (hupd1 : update_local_index cwd st.index cfg.outdir art.2 cfg.mode none
      (clock st.tick) = .ok entries)
    (calls : List NetCall) (blob : String)
    (htry : trySyncPush oracle art.2 = (calls, .ok blob))
    (entries2 : List Json)
    (hupd2 : update_local_index cwd (.parsed (.arr entries)) cfg.outdir art.2
      cfg.mode (some blob) (clock (st.tick + 1)) = .ok entries2) :
    processArtifact cfg oracle cwd clock gen st art =
      .ok { files := fset st.files (joinPath cfg.outdir art.2) (gen art.1),
            index := .parsed (.arr entries2), net := st.net ++ calls,
            tick := st.tick + 2 } := by
  simp only [processArtifact, hupd1, hsync, htry, hupd2]
  simp

/-- Claim C9: with no credential (or no repository) supplied, a full run
performs no network call at all, still writes both local artifact files,
and records a manifest entry per artifact whose remote-hash field is
null — local-only mode is fully functional. -/
theorem local_only_mode (mode outdir : String) (repo token : Option String)
    (branch msg : String) (oracle : Oracle) (cwd : List String)
    (clock : Nat → String) (gen : String → String)
    (hsync : (pyTruthy repo && pyTruthy token) = false) :
    runMain ⟨mode, "both", outdir, repo, token, branch, msg⟩ oracle cwd clock gen
      .missing =
    .ok { files := [(joinPath outdir "ronavi_server.lua", gen "server"),
                    (joinPath outdir "ronavi_local.lua", gen "local")],
          index := .parsed (.arr
            [newEntry "ronavi_server.lua" "ronavi_server.lua" mode (clock 0 ++ "Z") none,
             newEntry "ronavi_local.lua" "ronavi_local.lua" mode (clock 1 ++ "Z") none]),
          net := [], tick := 2 } := by
  have hj : joinPath outdir "ronavi_server.lua" ≠ joinPath outdir "ronavi_local.lua" := by
    intro hEq
    have h12 := joinPath_inj outdir "ronavi_server.lua" "ronavi_local.lua"
      (by decide) (by decide) hEq
    exact absurd h12 (by decide)
  have h1 : update_local_index cwd .missing outdir "ronavi_server.lua" mode none
      (clock 0) = .ok [newEntry "ronavi_server.lua" "ronavi_server.lua" mode
        (clock 0 ++ "Z") none] := by
    have hh := update_local_index_append cwd .missing outdir "ronavi_server.lua" mode
      none (clock 0) (by decide) (by decide) (by decide) (by decide)
      (by intro e he; simp [loadEntries] at he) (by intro e he; simp [loadEntries] at he)
    simpa [loadEntries] using hh
  have h2 : update_local_index cwd
      (.parsed (.arr [newEntry "ronavi_server.lua" "ronavi_server.lua" mode (clock 0 ++ "Z") none]))
      outdir "ronavi_local.lua" mode none (clock 1) =
      .ok [newEntry "ronavi_server.lua" "ronavi_server.lua" mode (clock 0 ++ "Z") none,
        newEntry "ronavi_local.lua" "ronavi_local.lua" mode (clock 1 ++ "Z") none] := by
    have hh := update_local_index_append cwd
      (.parsed (.arr [newEntry "ronavi_server.lua" "ronavi_server.lua" mode (clock 0 ++ "Z") none]))
      outdir "ronavi_local.lua" mode none (clock 1) (by decide) (by decide) (by decide) (by decide)
      (by intro e he
          simp [loadEntries] at he
          exact ⟨_, he⟩)
      (by intro e he
          simp [loadEntries] at he
          subst he
          simp [entryMatches, newEntry, newEntryFields, pathEq, dget])
    simpa [loadEntries] using hh
  unfold runMain
  have harts : to_create "both" =
      [("server", "ronavi_server.lua"), ("local", "ronavi_local.lua")] := rfl
  rw [show (⟨mode, "both", outdir, repo, token, branch, msg⟩ : Config).typ = "both" from rfl,
    harts]
  unfold processArtifacts
  rw [processArtifact_nosync _ oracle cwd clock gen _ _ hsync _ h1]
  unfold processArtifacts
  rw [processArtifact_nosync _ oracle cwd clock gen _ _ hsync _ h2]
  unfold processArtifacts
  unfold pushIndexPhase
  rw [hsync]
  simp [fset, hj]

theorem local_only_mode_witness :
    runMain ⟨"local", "both", "o", none, none, "main", "msg"⟩ conflictOracle
      ["home"] tickClock echoGen .missing =
    .ok { files := [(joinPath "o" "ronavi_server.lua", echoGen "server"),
                    (joinPath "o" "ronavi_local.lua", echoGen "local")],
          index := .parsed (.arr
            [newEntry "ronavi_server.lua" "ronavi_server.lua" "local" (tickClock 0 ++ "Z") none,
             newEntry "ronavi_local.lua" "ronavi_local.lua" "local" (tickClock 1 ++ "Z") none]),
          net := [], tick := 2 } :=
  local_only_mode "local" "o" none none "main" "msg" conflictOracle ["home"]
    tickClock echoGen (by decide)

/-- Claim C3 (counterexample): the artifact previously synced with
remote hash `h1`; on a re-run whose push fails with a conflict, the
batch continues, but the artifact's entry does NOT still hold `h1` —
the pre-push upsert already reset its `blob_sha` to null. -/
theorem push_failure_clears_hash_cex :
    runMain ⟨"local", "both", "o", some "own/rep", some "tok", "main", "msg"⟩
        conflictOracle ["w"] tickClock echoGen
        (.parsed (.arr [newEntry "ronavi_server.lua" "ronavi_server.lua" "local"
          "T9Z" (some "h1")])) =
      .ok { files := [("o/ronavi_server.lua", "server"), ("o/ronavi_local.lua", "local")],
            index := .parsed (.arr
              [newEntry "ronavi_server.lua" "ronavi_server.lua" "local" "T0Z" none,
               newEntry "ronavi_local.lua" "ronavi_local.lua" "local" "T1Z" none]),
            net := [.get "ronavi_server.lua", .put "ronavi_server.lua",
                    .get "ronavi_local.lua", .put "ronavi_local.lua",
                    .get INDEX_FILENAME, .put INDEX_FILENAME], tick := 2 } ∧
    entryField (newEntry "ronavi_server.lua" "ronavi_server.lua" "local" "T0Z" none)
      "blob_sha" = some Json.null ∧
    Json.null ≠ Json.str "h1" :=
  ⟨rfl, rfl, fun h => Json.noConfusion h⟩

set_option maxHeartbeats 1600000 in
/-- Claim C3 (amended): when the remote push of an artifact fails, the
batch is not aborted — the remaining artifacts are still processed and
synced — but the affected artifact's entry does not retain its most
recent successful remote hash: the pre-push upsert has already
overwritten its `blob_sha` with null, and the failure handler leaves it
that way. -/
theorem push_failure_batch_continues (mode outdir : String)
    (repo token : Option String) (branch msg : String) (oracle : Oracle)
    (cwd : List String) (clock : Nat → String) (gen : String → String)
    (srcPrev t0 hprev : String)
    (hr : pyTruthy repo = true) (ht : pyTruthy token = true)
    (hfail : (trySyncPush oracle "ronavi_server.lua").2.isOk = false) :
    ∃ st e2,
      runMain ⟨mode, "both", outdir, repo, token, branch, msg⟩ oracle cwd clock gen
        (.parsed (.arr [newEntry "ronavi_server.lua" "ronavi_server.lua" srcPrev
          t0 (some hprev)])) = .ok st ∧
      st.index = .parsed (.arr [newEntry "ronavi_server.lua" "ronavi_server.lua"
        mode (clock 0 ++ "Z") none, e2]) ∧
      entryField (newEntry "ronavi_server.lua" "ronavi_server.lua" mode
        (clock 0 ++ "Z") none) "blob_sha" = some Json.null ∧
      pathKey e2 = some "ronavi_local.lua" ∧
      NetCall.get "ronavi_local.lua" ∈ st.net := by
  have hsync : (pyTruthy repo && pyTruthy token) = true := by rw [hr, ht]; rfl
  have h1 : update_local_index cwd
      (.parsed (.arr [newEntry "ronavi_server.lua" "ronavi_server.lua" srcPrev t0 (some hprev)]))
      outdir "ronavi_server.lua" mode none (clock 0) =
      .ok [newEntry "ronavi_server.lua" "ronavi_server.lua" mode (clock 0 ++ "Z") none] := by
    show upsertIndex [newEntry "ronavi_server.lua" "ronavi_server.lua" srcPrev t0 (some hprev)]
      (relpath cwd (joinPath outdir "ronavi_server.lua") outdir) "ronavi_server.lua"
      mode (clock 0 ++ "Z") none = _
    rw [relpath_joinPath_bare cwd outdir "ronavi_server.lua" (by decide) (by decide)
      (by decide) (by decide)]
    have hfound := upsertIndex_found []
      (newEntryFields "ronavi_server.lua" "ronavi_server.lua" srcPrev t0 (some hprev)) []
      "ronavi_server.lua" "ronavi_server.lua" mode (clock 0 ++ "Z") none
      (by simp) (by simp) (by simp [pathEq, newEntryFields, dget])
    simpa [updateEntry_newEntryFields, newEntry] using hfound
  have h2 : update_local_index cwd
      (.parsed (.arr [newEntry "ronavi_server.lua" "ronavi_server.lua" mode (clock 0 ++ "Z") none]))
      outdir "ronavi_local.lua" mode none (clock 1) =
      .ok [newEntry "ronavi_server.lua" "ronavi_server.lua" mode (clock 0 ++ "Z") none,
        newEntry "ronavi_local.lua" "ronavi_local.lua" mode (clock 1 ++ "Z") none] := by
    have hh := update_local_index_append cwd
      (.parsed (.arr [newEntry "ronavi_server.lua" "ronavi_server.lua" mode (clock 0 ++ "Z") none]))
      outdir "ronavi_local.lua" mode none (clock 1) (by decide) (by decide) (by decide) (by decide)
      (by intro e he
          simp [loadEntries] at he
          exact ⟨_, he⟩)
      (by intro e he
          simp [loadEntries] at he
          subst he
          simp [entryMatches, newEntry, newEntryFields, pathEq, dget])
    simpa [loadEntries] using hh
  rcases htry1 : trySyncPush oracle "ronavi_server.lua" with ⟨calls1, r1⟩
  cases r1 with
  | ok s =>
    rw [htry1] at hfail
    simp [Except.isOk, Except.toBool] at hfail
  | error err =>
    rcases htry2 : trySyncPush oracle "ronavi_local.lua" with ⟨calls2, r2⟩
    have hmem2 : NetCall.get "ronavi_local.lua" ∈ calls2 := by
      have hm := trySyncPush_get_mem oracle "ronavi_local.lua"
      rw [htry2] at hm
      exact hm
    cases r2 with
    | error err2 =>
      have hrun : runMain ⟨mode, "both", outdir, repo, token, branch, msg⟩ oracle cwd
          clock gen (.parsed (.arr [newEntry "ronavi_server.lua" "ronavi_server.lua"
            srcPrev t0 (some hprev)])) =
          .ok { files := fset (fset [] (joinPath outdir "ronavi_server.lua") (gen "server"))
                  (joinPath outdir "ronavi_local.lua") (gen "local"),
                index := .parsed (.arr
                  [newEntry "ronavi_server.lua" "ronavi_server.lua" mode (clock 0 ++ "Z") none,
                   newEntry "ronavi_local.lua" "ronavi_local.lua" mode (clock 1 ++ "Z") none]),
                net := calls1 ++ calls2 ++ (trySyncPush oracle INDEX_FILENAME).1,
                tick := 2 } := by
        unfold runMain
        rw [show (⟨mode, "both", outdir, repo, token, branch, msg⟩ : Config).typ = "both"
          from rfl]
        rw [show to_create "both" =
          [("server", "ronavi_server.lua"), ("local", "ronavi_local.lua")] from rfl]
        unfold processArtifacts
        rw [processArtifact_syncfail _ oracle cwd clock gen _ _ hsync _ h1 calls1 err htry1]
        unfold processArtifacts
        rw [processArtifact_syncfail _ oracle cwd clock gen _ _ hsync _ h2 calls2 err2 htry2]
        unfold processArtifacts
        unfold pushIndexPhase
        rw [hsync]
        simp [indexFileExists]
      refine ⟨_, newEntry "ronavi_local.lua" "ronavi_local.lua" mode (clock 1 ++ "Z") none,
        hrun, rfl, rfl, ?_, ?_⟩
      · simp [pathKey, newEntry, newEntryFields, dget]
      · simp [hmem2]
    | ok blob =>
      have h3 : update_local_index cwd
          (.parsed (.arr [newEntry "ronavi_server.lua" "ronavi_server.lua" mode (clock 0 ++ "Z") none,
            newEntry "ronavi_local.lua" "ronavi_local.lua" mode (clock 1 ++ "Z") none]))
          outdir "ronavi_local.lua" mode (some blob) (clock 2) =
          .ok [newEntry "ronavi_server.lua" "ronavi_server.lua" mode (clock 0 ++ "Z") none,
            newEntry "ronavi_local.lua" "ronavi_local.lua" mode (clock 2 ++ "Z") (some blob)] := by
        show upsertIndex [newEntry "ronavi_server.lua" "ronavi_server.lua" mode (clock 0 ++ "Z") none,
            newEntry "ronavi_local.lua" "ronavi_local.lua" mode (clock 1 ++ "Z") none]
          (relpath cwd (joinPath outdir "ronavi_local.lua") outdir) "ronavi_local.lua"
          mode (clock 2 ++ "Z") (some blob) = _
        rw [relpath_joinPath_bare cwd outdir "ronavi_local.lua" (by decide) (by decide)
          (by decide) (by decide)]
        have hfound := upsertIndex_found
          [newEntry "ronavi_server.lua" "ronavi_server.lua" mode (clock 0 ++ "Z") none]
          (newEntryFields "ronavi_local.lua" "ronavi_local.lua" mode (clock 1 ++ "Z") none) []
          "ronavi_local.lua" "ronavi_local.lua" mode (clock 2 ++ "Z") (some blob)
          (by intro e he
              simp at he
              subst he
              exact ⟨_, rfl⟩)
          (by intro e he
              simp at he
              subst he
              simp [entryMatches, newEntry, newEntryFields, pathEq, dget])
          (by simp [pathEq, newEntryFields, dget])
        simpa [updateEntry_newEntryFields, newEntry] using hfound
      have hrun : runMain ⟨mode, "both", outdir, repo, token, branch, msg⟩ oracle cwd
          clock gen (.parsed (.arr [newEntry "ronavi_server.lua" "ronavi_server.lua"
            srcPrev t0 (some hprev)])) =
          .ok { files := fset (fset [] (joinPath outdir "ronavi_server.lua") (gen "server"))
                  (joinPath outdir "ronavi_local.lua") (gen "local"),
                index := .parsed (.arr
                  [newEntry "ronavi_server.lua" "ronavi_server.lua" mode (clock 0 ++ "Z") none,
                   newEntry "ronavi_local.lua" "ronavi_local.lua" mode (clock 2 ++ "Z") (some blob)]),
                net := calls1 ++ calls2 ++ (trySyncPush oracle INDEX_FILENAME).1,
                tick := 3 } := by
        unfold runMain
        rw [show (⟨mode, "both", outdir, repo, token, branch, msg⟩ : Config).typ = "both"
          from rfl]
        rw [show to_create "both" =
          [("server", "ronavi_server.lua"), ("local", "ronavi_local.lua")] from rfl]
        unfold processArtifacts
        rw [processArtifact_syncfail _ oracle cwd clock gen _ _ hsync _ h1 calls1 err htry1]
        unfold processArtifacts
        rw [processArtifact_syncok _ oracle cwd clock gen _ _ hsync _ h2 calls2 blob htry2 _ h3]
        unfold processArtifacts
        unfold pushIndexPhase
        rw [hsync]
        simp [indexFileExists]
      refine ⟨_, newEntry "ronavi_local.lua" "ronavi_local.lua" mode (clock 2 ++ "Z") (some blob),
        hrun, rfl, rfl, ?_, ?_⟩
      · simp [pathKey, newEntry, newEntryFields, dget]
      · simp [hmem2]

theorem push_failure_batch_continues_witness :
    ∃ st e2,
      runMain ⟨"local", "both", "o", some "own/rep", some "tok", "main", "msg"⟩
        conflictOracle ["w"] tickClock echoGen
        (.parsed (.arr [newEntry "ronavi_server.lua" "ronavi_server.lua" "ai"
          "T9Z" (some "h1")])) = .ok st ∧
      st.index = .parsed (.arr [newEntry "ronavi_server.lua" "ronavi_server.lua"
        "local" (tickClock 0 ++ "Z") none, e2]) ∧
      entryField (newEntry "ronavi_server.lua" "ronavi_server.lua" "local"
        (tickClock 0 ++ "Z") none) "blob_sha" = some Json.null ∧
      pathKey e2 = some "ronavi_local.lua" ∧
      NetCall.get "ronavi_local.lua" ∈ st.net :=
  push_failure_batch_continues "local" "o" (some "own/rep") (some "tok") "main"
    "msg" conflictOracle ["w"] tickClock echoGen "ai" "T9Z" "h1"
    (by decide) (by decide) rfl

end RonaviGen
